import Mathlib

/-!
Verification of the pairing-based encrypt-and-authenticate scheme and its
baby-step/giant-step exploit (src/src/main.rs).

The program works over the BLS12-381 pairing groups: two source groups `G1`,
`G2` and a target group `GT`, all cyclic of the same prime order `r` (the
order of the scalar field `Fr`).  The curve arithmetic itself comes from the
external arkworks crates and is out of scope per the specification ("Pairing
Group Layer (external capability) ... Consumed, not built, by this core").
We therefore embed the algebra the program actually uses: every group element
is represented by its discrete logarithm with respect to the standard
generator of its group, so each of `G1`, `G2`, `GT` becomes `ZMod r`, scalar
multiplication `p.mul(s)` becomes multiplication in `ZMod r`, group addition
and subtraction become addition and subtraction in `ZMod r`, and the bilinear
pairing `e(x·g1, y·g2) = (x*y)·gT` becomes multiplication of exponents.
`Fr::from(n : u64)` becomes the natural-number cast into `ZMod r`.

The SHA-256-based hash-to-curve (`ElGamal::hash_to_curve`, built on the
external `MapToCurveBasedHasher`) is a deterministic map from a ciphertext to
a `G2` element; it is embedded as an arbitrary function parameter
`H : ElGamal → G2` (in discrete-log representation).  Statements that need
the hash output to be a generator of the prime-order group `G2` carry the
hypothesis `IsUnit (H c)`, which in the real prime-order group is exactly
"the hash of `c` is not the identity".
-/

/-- Order of the BLS12-381 scalar field `Fr`, which is also the order of the
(prime-order) groups `G1`, `G2` and `GT` used by the program. -/
def r : ℕ := 52435875175126190479447740508185965837690552500527637822603658699938581184513

instance : NeZero r := ⟨by decide⟩

/-- `G1` in discrete-log representation: `x : G1` stands for `x · g1`. -/
abbrev G1 := ZMod r

/-- `G2` in discrete-log representation. -/
abbrev G2 := ZMod r

/-- The pairing target group `PairingOutput<Bls12_381>` in discrete-log
representation (written additively, as in arkworks). -/
abbrev GT := ZMod r

/-- The scalar field `Fr`. -/
abbrev Scalar := ZMod r

/-- `G1Projective::generator()` : discrete log 1. -/
def g1 : G1 := 1

/-- The bilinear pairing `Bls12_381::pairing`: on discrete logs,
`e(x·g1, y·g2) = (x*y)·gT`. -/
def pairing (x : G1) (y : G2) : GT := x * y

/-- `struct ElGamal(G1Affine, G1Affine)` — the ciphertext `(c1, c2)`. -/
abbrev ElGamal := G1 × G1

/-- `struct Sender { sk: Fr, pk: G1Affine }`. -/
structure Sender where
  sk : Scalar
  pk : G1

/-- `struct Receiver { pk: G1Affine }`. -/
structure Receiver where
  pk : G1

/-- `Sender::send`: `c_2 = r.pk.mul(&self.sk) + m.0`, ciphertext
`ElGamal(self.pk, c_2)`. -/
def Sender.send (s : Sender) (m : G1) (rc : Receiver) : ElGamal :=
  (s.pk, rc.pk * s.sk + m)

/-- `Sender::authenticate`: `hash_c.mul(&self.sk)` where
`hash_c = c.hash_to_curve()`; the hash is the parameter `H`. -/
def Sender.authenticate (H : ElGamal → G2) (s : Sender) (c : ElGamal) : G2 :=
  H c * s.sk

namespace Auditor

/-- `Auditor::check_auth`: `pairing(G1::generator(), s) == pairing(sender_pk, hash_c)`. -/
def check_auth (H : ElGamal → G2) (sender_pk : G1) (c : ElGamal) (s : G2) : Bool :=
  decide (pairing g1 s = pairing sender_pk (H c))

end Auditor

/-- The ten `u64` plaintext integers hard-coded in `generate_message_space`. -/
def msgValues : List ℕ :=
  [390183091831, 4987238947234982, 84327489279482, 8492374892742,
   5894274824234, 4982748927426, 48248927348927427, 489274982749828,
   99084321987189371, 8427489729843712893]

/-- `generate_message_space`: each message is `g1.mul(Fr::from(msg_i))`. -/
def generate_message_space : List G1 :=
  msgValues.map fun n => g1 * (n : Scalar)

/-- The baby-step table of `baby_giant`, as the sequence of inserts
`table.insert(a.mul(Fr::from(j)), j)` for `j in 0..m` (in insertion order). -/
def babyTable (a : GT) (m : ℕ) : List (GT × ℕ) :=
  (List.range m).map fun (j : ℕ) => (a * (j : Scalar), j)

/-- `table.get(&v)` for the `HashMap` built by the insert sequence `t`: a
later insert of the same key overwrites an earlier one, so the lookup
returns the value of the last matching insert. -/
def tableFind (t : List (GT × ℕ)) (v : GT) : Option ℕ :=
  (t.reverse.find? fun p => decide (p.1 = v)).map Prod.snd

/-- The giant-step loop of `baby_giant` (`for i in 0u64..m`): `i` is the
loop counter, `fuel` the number of remaining iterations (initially `m`),
`gamma` the running value; falling out of the loop is the
`panic!("No discrete log found")`, modelled as `none`. -/
def giantLoop (t : List (GT × ℕ)) (am : GT) (m : ℕ) : ℕ → ℕ → GT → Option ℕ
  | _, 0, _ => none
  | i, fuel+1, gamma =>
    match tableFind t gamma with
    | some j => some (i * m + j)
    | none => giantLoop t am m (i+1) fuel (gamma - am)

/-- `baby_giant(max_bitwidth, a, b)`: `m = 1 << (max_bitwidth / 2)`, build
the baby-step table, then run the giant-step loop with `am = a.mul(Fr::from(m))`
and `gamma = b`; `some x` models `return x`, `none` models the panic. -/
def baby_giant (max_bitwidth : ℕ) (a b : GT) : Option ℕ :=
  let m := 2 ^ (max_bitwidth / 2)
  giantLoop (babyTable a m) (a * (m : Scalar)) m 0 m b

/-- Number of giant-step loop iterations entered by `giantLoop` on the same
arguments (each entry into the loop body counts one). -/
def giantLoopSteps (t : List (GT × ℕ)) (am : GT) (m : ℕ) : ℕ → ℕ → GT → ℕ
  | _, 0, _ => 0
  | i, fuel+1, gamma =>
    match tableFind t gamma with
    | some _ => 1
    | none => giantLoopSteps t am m (i+1) fuel (gamma - am) + 1

/-- Number of giant-step iterations performed by `baby_giant`. -/
def baby_giant_steps (max_bitwidth : ℕ) (a b : GT) : ℕ :=
  let m := 2 ^ (max_bitwidth / 2)
  giantLoopSteps (babyTable a m) (a * (m : Scalar)) m 0 m b

/-!
The source computes `m = 1u64 << (max_bitwidth / 2)` and the returned index
`i*m + j` in `u64`.  The unbounded model above is exact for
`max_bitwidth ≤ 64` (there `m ≤ 2^32` and `i*m + j < 2^64`); beyond that the
source overflows: a shift by 64 or more bits (`max_bitwidth ≥ 128`) and a
returned index `≥ 2^64` (possible once `max_bitwidth ≥ 66`) are
arithmetic-overflow conditions, which under Rust's checked semantics (the
default debug profile this binary is run with) abort the program with an
overflow diagnostic distinct from the `"No discrete log found"` signal.
The following definitions refine the model with those checks. -/

/-- Outcome of a `baby_giant` run under checked u64 semantics: a returned
index, the `"No discrete log found"` signal, or an earlier abort on an
overflowing u64 operation. -/
inductive BGOutcome where
  | found (x : ℕ)
  | noDiscreteLog
  | overflow
  deriving DecidableEq

/-- `let m = 1u64 << (max_bitwidth / 2)` as the source computes it in u64
under checked semantics: a shift by 64 or more bits overflows (`none`);
otherwise the value is exactly `2 ^ (max_bitwidth / 2)`, which fits u64. -/
def m_u64 (max_bitwidth : ℕ) : Option ℕ :=
  if max_bitwidth / 2 < 64 then some (2 ^ (max_bitwidth / 2)) else none

/-- Number of baby-step table inserts the program executes: all `m` of them
when the shift defining `m` succeeds, and none at all when the shift
overflows before the table loop is reached. -/
def baby_steps_u64 (max_bitwidth : ℕ) : ℕ :=
  match m_u64 max_bitwidth with
  | none => 0
  | some m => m

/-- `baby_giant` under checked u64 semantics: the shift computing `m` and
the returned index `i*m + j` are u64 operations, and either may overflow
(`.overflow`) before the search can return or reach the
`"No discrete log found"` signal (`.noDiscreteLog`).  Agrees with the
unbounded `baby_giant` whenever `max_bitwidth ≤ 64`. -/
def baby_giant_u64 (max_bitwidth : ℕ) (a b : GT) : BGOutcome :=
  match m_u64 max_bitwidth with
  | none => BGOutcome.overflow
  | some m =>
    match giantLoop (babyTable a m) (a * (m : Scalar)) m 0 m b with
    | none => BGOutcome.noDiscreteLog
    | some x => if x < 2 ^ 64 then BGOutcome.found x else BGOutcome.overflow

/-! ### Lemmas about the baby-step table and the giant-step loop -/

lemma giantLoop_succ (t : List (GT × ℕ)) (am : GT) (m i fuel : ℕ) (gamma : GT) :
    giantLoop t am m i (fuel + 1) gamma =
      match tableFind t gamma with
      | some j => some (i * m + j)
      | none => giantLoop t am m (i + 1) fuel (gamma - am) := rfl

lemma tableFind_sound {a : GT} {m : ℕ} {v : GT} {j : ℕ}
    (h : tableFind (babyTable a m) v = some j) :
    j < m ∧ a * (j : Scalar) = v := by
  unfold tableFind at h
  rcases Option.map_eq_some'.mp h with ⟨p, hfind, hsnd⟩
  have hp := List.find?_some hfind
  have hmem : p ∈ (babyTable a m).reverse := List.mem_of_find?_eq_some hfind
  rw [List.mem_reverse] at hmem
  unfold babyTable at hmem
  rcases List.mem_map.mp hmem with ⟨j0, hj0, hpj⟩
  rw [List.mem_range] at hj0
  subst hpj
  simp only at hp hsnd
  subst hsnd
  exact ⟨hj0, of_decide_eq_true hp⟩

lemma tableFind_complete {a : GT} {m : ℕ} {v : GT} (j0 : ℕ) (hj : j0 < m)
    (hv : a * (j0 : Scalar) = v) :
    ∃ j, tableFind (babyTable a m) v = some j := by
  have hmem : ((a * (j0 : Scalar), j0) : GT × ℕ) ∈ (babyTable a m).reverse := by
    rw [List.mem_reverse]
    exact List.mem_map.mpr ⟨j0, List.mem_range.mpr hj, rfl⟩
  cases hf : (babyTable a m).reverse.find? fun p => decide (p.1 = v) with
  | none =>
    exact absurd (of_decide_eq_true (by simpa using List.find?_eq_none.mp hf _ hmem)) (by simp [hv])
  | some p =>
    exact ⟨p.2, by unfold tableFind; rw [hf]; rfl⟩

lemma giantLoopSteps_le (t : List (GT × ℕ)) (am : GT) (m : ℕ) :
    ∀ fuel i gamma, giantLoopSteps t am m i fuel gamma ≤ fuel := by
  intro fuel
  induction fuel with
  | zero => intro i gamma; simp [giantLoopSteps]
  | succ fuel ih =>
    intro i gamma
    show (match tableFind t gamma with
          | some _ => 1
          | none => giantLoopSteps t am m (i + 1) fuel (gamma - am) + 1) ≤ fuel + 1
    cases tableFind t gamma with
    | some j =>
      show 1 ≤ fuel + 1
      omega
    | none =>
      show giantLoopSteps t am m (i + 1) fuel (gamma - am) + 1 ≤ fuel + 1
      exact Nat.succ_le_succ (ih (i + 1) (gamma - am))

lemma giantLoop_hit (a : GT) (m x : ℕ) (hm : 0 < m) (hx : x < m * m)
    (inj : ∀ k l : ℕ, k < m * m → l < m * m →
      a * (k : Scalar) = a * (l : Scalar) → k = l) :
    ∀ fuel i, i ≤ x / m → x / m - i < fuel →
      giantLoop (babyTable a m) (a * (m : Scalar)) m i fuel
        (a * ((x - i * m : ℕ) : Scalar)) = some x := by
  intro fuel
  induction fuel with
  | zero => intro i hi hfuel; omega
  | succ fuel ih =>
    intro i hi hfuel
    have hqs : m * (x / m) + x % m = x := Nat.div_add_mod x m
    have hc1 : x / m * m = m * (x / m) := mul_comm _ _
    have hsm : x % m < m := Nat.mod_lt _ hm
    have hmle : m ≤ m * m := Nat.le_mul_of_pos_left m hm
    rw [giantLoop_succ]
    by_cases hiq : i = x / m
    · subst hiq
      have hxi : x - x / m * m = x % m := by omega
      obtain ⟨j, hj⟩ := tableFind_complete (v := a * ((x - x / m * m : ℕ) : Scalar))
        (x % m) hsm (by rw [hxi])
      obtain ⟨hjm, hjv⟩ := tableFind_sound hj
      rw [hj]
      have hjeq : j = x % m := by
        refine inj j (x % m) (lt_of_lt_of_le hjm hmle) (lt_of_lt_of_le hsm hmle) ?_
        rw [hjv, hxi]
      simp only [hjeq]
      congr 1
      omega
    · have hilt : i < x / m := lt_of_le_of_ne hi hiq
      have hmul : (i + 1) * m ≤ x / m * m :=
        Nat.mul_le_mul_right m (by omega)
      have hsucc : (i + 1) * m = i * m + m := by ring
      have hge : m ≤ x - i * m := by omega
      have hxim : x - i * m < m * m := by omega
      have hnone : tableFind (babyTable a m) (a * ((x - i * m : ℕ) : Scalar)) = none := by
        cases hf : tableFind (babyTable a m) (a * ((x - i * m : ℕ) : Scalar)) with
        | none => rfl
        | some j =>
          obtain ⟨hjm, hjv⟩ := tableFind_sound hf
          have : j = x - i * m := inj j (x - i * m) (lt_of_lt_of_le hjm hmle) hxim hjv
          omega
      rw [hnone]
      have hgam : a * ((x - i * m : ℕ) : Scalar) - a * (m : Scalar)
          = a * ((x - (i + 1) * m : ℕ) : Scalar) := by
        have hnat : x - i * m = (x - (i + 1) * m) + m := by omega
        rw [hnat]
        push_cast
        ring
      rw [hgam]
      exact ih (i + 1) (by omega) (by omega)

lemma giantLoop_sound (a : GT) (m : ℕ) :
    ∀ fuel i gamma x,
      giantLoop (babyTable a m) (a * (m : Scalar)) m i fuel gamma = some x →
      ∃ k j, k < fuel ∧ j < m ∧ x = (i + k) * m + j ∧
        a * (j : Scalar) = gamma - (k : Scalar) * (a * (m : Scalar)) := by
  intro fuel
  induction fuel with
  | zero => intro i gamma x h; exact absurd h (by simp [giantLoop])
  | succ fuel ih =>
    intro i gamma x h
    rw [giantLoop_succ] at h
    cases hf : tableFind (babyTable a m) gamma with
    | some j =>
      rw [hf] at h
      simp only [Option.some.injEq] at h
      obtain ⟨hjm, hjv⟩ := tableFind_sound hf
      refine ⟨0, j, by omega, hjm, ?_, by rw [hjv]; push_cast; ring⟩
      simp only [Nat.add_zero]
      omega
    | none =>
      rw [hf] at h
      obtain ⟨k, j, hk, hj, hx, hv⟩ := ih (i + 1) (gamma - a * (m : Scalar)) x h
      refine ⟨k + 1, j, by omega, hj, ?_, ?_⟩
      · have hik : i + 1 + k = i + (k + 1) := by omega
        rw [hx, hik]
      · rw [hv]; push_cast; ring

/-- Everything `baby_giant` returns is a true bounded discrete logarithm:
`baby_giant bw a b = some x` forces `x < 2^(bw/2) · 2^(bw/2)` and `b = a·x`. -/
lemma baby_giant_sound_aux (bw : ℕ) (a b : GT) (x : ℕ)
    (h : baby_giant bw a b = some x) :
    x < 2 ^ (bw / 2) * 2 ^ (bw / 2) ∧ a * (x : Scalar) = b := by
  have h' : giantLoop (babyTable a (2 ^ (bw / 2))) (a * ((2 ^ (bw / 2) : ℕ) : Scalar))
      (2 ^ (bw / 2)) 0 (2 ^ (bw / 2)) b = some x := h
  obtain ⟨k, j, hk, hj, hx, hv⟩ := giantLoop_sound a (2 ^ (bw / 2)) (2 ^ (bw / 2)) 0 b x h'
  simp only [Nat.zero_add] at hx
  constructor
  · calc x = k * 2 ^ (bw / 2) + j := hx
    _ < k * 2 ^ (bw / 2) + 2 ^ (bw / 2) := by omega
    _ = (k + 1) * 2 ^ (bw / 2) := by ring
    _ ≤ 2 ^ (bw / 2) * 2 ^ (bw / 2) := Nat.mul_le_mul_right _ (by omega)
  · rw [hx]
    push_cast at hv ⊢
    linear_combination hv

/-- Completeness of `baby_giant` for even bitwidths over a base whose scalar
multiples are pairwise distinct on the searched range. -/
lemma baby_giant_correct (bw : ℕ) (a : GT) (x : ℕ)
    (heven : bw % 2 = 0)
    (hinj : ∀ k : ℕ, k < 2 ^ bw → ∀ l : ℕ, l < 2 ^ bw →
      a * (k : Scalar) = a * (l : Scalar) → k = l)
    (hx : x < 2 ^ bw) :
    baby_giant bw a (a * (x : Scalar)) = some x := by
  have hmm : 2 ^ (bw / 2) * 2 ^ (bw / 2) = 2 ^ bw := by
    rw [← pow_add]
    congr 1
    omega
  have hm : 0 < 2 ^ (bw / 2) := pow_pos (by norm_num) _
  show giantLoop (babyTable a (2 ^ (bw / 2))) (a * ((2 ^ (bw / 2) : ℕ) : Scalar))
      (2 ^ (bw / 2)) 0 (2 ^ (bw / 2)) (a * (x : Scalar)) = some x
  have hxmm : x < 2 ^ (bw / 2) * 2 ^ (bw / 2) := lt_of_lt_of_eq hx hmm.symm
  have hdiv : x / 2 ^ (bw / 2) < 2 ^ (bw / 2) := (Nat.div_lt_iff_lt_mul hm).mpr hxmm
  have := giantLoop_hit a (2 ^ (bw / 2)) x hm hxmm
    (fun k l hk hl hkl => hinj k (lt_of_lt_of_eq hk hmm) l (lt_of_lt_of_eq hl hmm) hkl)
    (2 ^ (bw / 2)) 0 (Nat.zero_le _) (by omega)
  simpa using this

/-- Looking up a value whose last insert was at index `n` (the final baby step)
finds that index. -/
lemma tableFind_last (a : GT) (n : ℕ) (v : GT) (h : a * (n : Scalar) = v) :
    tableFind (babyTable a (n + 1)) v = some n := by
  unfold tableFind babyTable
  rw [List.range_succ, List.map_append, List.reverse_append]
  simp [List.find?, h]

/-!
### The concrete end-to-end scenario of `main` (the attack section)

The locals of `main` (lines 145–194 of `src/src/main.rs`), parameterized by
the external hash `H`.  The source's `Receiver` local is named `r` there; we
call it `rcv` because `r` already names the group order.
-/

namespace Scenario

/-- `let sk = Fr::from(8718712u64)`. -/
def sk : Scalar := 8718712

/-- `let pk = g1.mul(sk).into_affine()`. -/
def pk : G1 := g1 * sk

/-- `let s = Sender { sk, pk }`. -/
def s : Sender := ⟨sk, pk⟩

/-- `let sk2 = Fr::from(87183453u64)`. -/
def sk2 : Scalar := 87183453

/-- `let pk2 = g1.mul(sk2).into_affine()`. -/
def pk2 : G1 := g1 * sk2

/-- `let r = Receiver { pk: pk2 }`. -/
def rcv : Receiver := ⟨pk2⟩

/-- `let c = s.send(messages[0], &r)`. -/
def c : ElGamal := s.send (generate_message_space.getD 0 0) rcv

/-- `let ch = c.hash_to_curve()`. -/
def ch (H : ElGamal → G2) : G2 := H c

/-- `let a = s.authenticate(&c)` (the authentication tag). -/
def tag (H : ElGamal → G2) : G2 := s.authenticate H c

/-- `let u1 = Bls12_381::pairing(c.1, ch)`. -/
def u1 (H : ElGamal → G2) : GT := pairing c.2 (ch H)

/-- `let d1 = Bls12_381::pairing(pk2, a)`. -/
def d1 (H : ElGamal → G2) : GT := pairing pk2 (tag H)

/-- `let mpp = u1 - d1`. -/
def mpp (H : ElGamal → G2) : GT := u1 H - d1 H

/-- `let pmi = Bls12_381::pairing(msg, ch)` for candidate `i` of the message
space. -/
def pmi (H : ElGamal → G2) (i : ℕ) : GT :=
  pairing (generate_message_space.getD i 0) (ch H)

/-- The candidate-matching comparison `paired_msg == pmi` of the exploit's
path B, applied to the record built in the scenario. -/
def candidateMatch (H : ElGamal → G2) (i : ℕ) : Bool :=
  decide (mpp H = pmi H i)

end Scenario

/-! ### Claim theorems -/

/-- C1: for every sender key pair satisfying the key-pair invariant
(`pk = g1 * sk`), every recipient public key, every message `m`, and every
(deterministic) hash-to-curve map `H`, the auditor accepts the honestly
produced record:
`check_auth(sender.pk, sender.send(m, receiver), sender.authenticate(send(m, receiver)))`
returns `true`. -/
theorem C1_check_auth_accepts_honest (H : ElGamal → G2) (s : Sender)
    (hpk : s.pk = g1 * s.sk) (rc : Receiver) (m : G1) :
    Auditor.check_auth H s.pk (s.send m rc) (s.authenticate H (s.send m rc)) = true := by
  unfold Auditor.check_auth Sender.authenticate pairing
  rw [decide_eq_true_eq, hpk]
  ring

theorem C1_check_auth_accepts_honest_witness :
    (Sender.mk 5 5).pk = g1 * (Sender.mk 5 5).sk ∧
      Auditor.check_auth (fun _ => 2) (Sender.mk (5 : Scalar) (5 : G1)).pk
        ((Sender.mk 5 5).send 11 (Receiver.mk 7))
        ((Sender.mk 5 5).authenticate (fun _ => 2)
          ((Sender.mk 5 5).send 11 (Receiver.mk 7))) = true :=
  ⟨by decide, C1_check_auth_accepts_honest (fun _ => 2) (Sender.mk 5 5) (by decide)
    (Receiver.mk 7) 11⟩

/-- C2: for every honestly produced record (sender `pk = g1 * sk`, ciphertext
from `send`, tag from `authenticate`) and every hash map `H`, the exploit
driver's derived value satisfies
`pairing(c.1, hash(c)) - pairing(rec_pk, tag) = pairing(m, hash(c))`:
the sender's secret scalar cancels entirely. -/
theorem C2_bilinearity_cancellation (H : ElGamal → G2) (s : Sender)
    (_hpk : s.pk = g1 * s.sk) (rc : Receiver) (m : G1) :
    pairing (s.send m rc).2 (H (s.send m rc))
        - pairing rc.pk (s.authenticate H (s.send m rc))
      = pairing m (H (s.send m rc)) := by
  unfold Sender.send Sender.authenticate pairing
  ring

theorem C2_bilinearity_cancellation_witness :
    (Sender.mk 5 5).pk = g1 * (Sender.mk 5 5).sk ∧
      pairing ((Sender.mk (5 : Scalar) (5 : G1)).send 11 (Receiver.mk 7)).2
          ((fun _ => (2 : G2)) ((Sender.mk 5 5).send 11 (Receiver.mk 7)))
        - pairing (Receiver.mk (7 : G1)).pk
          ((Sender.mk 5 5).authenticate (fun _ => 2)
            ((Sender.mk 5 5).send 11 (Receiver.mk 7)))
      = pairing 11 ((fun _ => (2 : G2)) ((Sender.mk 5 5).send 11 (Receiver.mk 7))) :=
  ⟨by decide, C2_bilinearity_cancellation (fun _ => 2) (Sender.mk 5 5) (by decide)
    (Receiver.mk 7) 11⟩

/-- C6: a record whose tag was computed under a different secret `sk'` than
the one the sender public key was derived from is rejected: whenever the hash
of the ciphertext is a generator of the prime-order group `G2` (`IsUnit`, i.e.
not the identity) and `sk ≠ sk'`, `check_auth` returns `false`. -/
theorem C6_check_auth_rejects_forged_tag (H : ElGamal → G2) (c : ElGamal)
    (sk sk' : Scalar) (hH : IsUnit (H c)) (hne : sk ≠ sk') :
    Auditor.check_auth H (g1 * sk) c
      ((Sender.mk sk' (g1 * sk')).authenticate H c) = false := by
  unfold Auditor.check_auth Sender.authenticate pairing g1
  dsimp only
  rw [decide_eq_false_iff_not]
  intro heq
  apply hne
  refine hH.mul_left_cancel ?_
  linear_combination -heq

theorem C6_check_auth_rejects_forged_tag_witness :
    IsUnit ((fun _ => (1 : G2)) ((0, 0) : ElGamal)) ∧ (1 : Scalar) ≠ 2 ∧
      Auditor.check_auth (fun _ => 1) (g1 * 1) ((0, 0) : ElGamal)
        ((Sender.mk 2 (g1 * 2)).authenticate (fun _ => 1) ((0, 0) : ElGamal)) = false :=
  ⟨isUnit_one, by decide,
    C6_check_auth_rejects_forged_tag (fun _ => 1) ((0, 0) : ElGamal) 1 2 isUnit_one (by decide)⟩

/-- C3 counterexample: the claim fails for the odd bitwidth 1.  With the
generator base `a = 1` and `x = 1 < 2^1`, the search only covers
`x < 2^(2·(1/2)) = 1`, so the solver panics (`none`) instead of returning 1. -/
theorem C3_odd_bitwidth_counterexample :
    baby_giant 1 1 ((1 : GT) * ((1 : ℕ) : Scalar)) ≠ some 1 := by decide

/-- C3 (amended): for every even `max_bitwidth ≤ 64` (the range on which
every u64 operation of the source — the shift defining `m` and the returned
index `i*m + j` — stays in range), every base `A` whose scalar multiples by
`0 ≤ k < 2^max_bitwidth` are pairwise distinct (any generator of the
prime-order target group), and every `x < 2^max_bitwidth`,
`baby_giant max_bitwidth A (A·x)` returns `x`. -/
theorem C3_baby_giant_even_bitwidth_correct (bw : ℕ) (a : GT) (x : ℕ)
    (_hbw : bw ≤ 64) (heven : bw % 2 = 0)
    (hinj : ∀ k : ℕ, k < 2 ^ bw → ∀ l : ℕ, l < 2 ^ bw →
      a * (k : Scalar) = a * (l : Scalar) → k = l)
    (hx : x < 2 ^ bw) :
    baby_giant bw a (a * (x : Scalar)) = some x :=
  baby_giant_correct bw a x heven hinj hx

theorem C3_baby_giant_even_bitwidth_correct_witness :
    (2 : ℕ) ≤ 64 ∧ (2 : ℕ) % 2 = 0 ∧
      (∀ k : ℕ, k < 2 ^ 2 → ∀ l : ℕ, l < 2 ^ 2 →
        (1 : GT) * (k : Scalar) = 1 * (l : Scalar) → k = l) ∧
      (3 : ℕ) < 2 ^ 2 ∧
      baby_giant 2 1 ((1 : GT) * ((3 : ℕ) : Scalar)) = some 3 :=
  ⟨by norm_num, rfl, by decide, by norm_num,
    C3_baby_giant_even_bitwidth_correct 2 1 3 (by norm_num) rfl (by decide) (by norm_num)⟩

/-- C4 counterexample: the claim fails for the degenerate base `A = 0` (the
identity of the target group).  With `x = 1 < 2^20`, `A·x = A·0`, and the
solver returns the last baby-step index that collided in the table
(`2^16 - 1`), not 1. -/
theorem C4_zero_base_counterexample :
    baby_giant 32 0 ((0 : GT) * ((1 : ℕ) : Scalar)) ≠ some 1 := by
  have hb : (0 : GT) * ((1 : ℕ) : Scalar) = 0 := by simp
  have hm : (2 : ℕ) ^ (32 / 2) = 65535 + 1 := by norm_num
  show giantLoop (babyTable 0 (2 ^ (32 / 2))) (0 * ((2 ^ (32 / 2) : ℕ) : Scalar))
      (2 ^ (32 / 2)) 0 (2 ^ (32 / 2)) ((0 : GT) * ((1 : ℕ) : Scalar)) ≠ some 1
  rw [hb, hm, giantLoop_succ, tableFind_last 0 65535 0 (by simp)]
  simp

/-- C4 (amended): for every base `A` that generates the prime-order target
group (`IsUnit` in discrete-log representation, i.e. not the identity) and
every `x < 2^20`, `baby_giant 32 A (A·x)` returns exactly `x`. -/
theorem C4_baby_giant_round_trip (a : GT) (ha : IsUnit a) (x : ℕ)
    (hx : x < 2 ^ 20) :
    baby_giant 32 a (a * (x : Scalar)) = some x := by
  refine baby_giant_correct 32 a x rfl ?_ (lt_trans hx (by norm_num))
  intro k hk l hl heq
  have hkl : (k : Scalar) = (l : Scalar) := ha.mul_left_cancel heq
  have hr32 : (2 : ℕ) ^ 32 < r := by norm_num [r]
  have hk' := ZMod.val_cast_of_lt (lt_trans hk hr32)
  have hl' := ZMod.val_cast_of_lt (lt_trans hl hr32)
  rw [← hk', ← hl', hkl]

theorem C4_baby_giant_round_trip_witness :
    IsUnit (1 : GT) ∧ (65535 : ℕ) < 2 ^ 20 ∧
      baby_giant 32 1 ((1 : GT) * ((65535 : ℕ) : Scalar)) = some 65535 :=
  ⟨isUnit_one, by norm_num, C4_baby_giant_round_trip 1 isUnit_one 65535 (by norm_num)⟩

/-- C5: in the concrete scenario of `main` (`sk = 8718712`, `sk2 = 87183453`,
`pk2 = g1·sk2`, message `messages[0] = g1·390183091831`), whenever the hash of
the ciphertext generates `G2` (is not the identity), the candidate-matching
comparison `mpp == pairing(mᵢ, ch)` succeeds exactly for candidate 0 and for
no other of the ten candidates. -/
theorem C5_candidate_matching (H : ElGamal → G2) (hH : IsUnit (H Scenario.c))
    (i : ℕ) (hi : i < 10) :
    Scenario.candidateMatch H i = true ↔ i = 0 := by
  unfold Scenario.candidateMatch
  rw [decide_eq_true_eq]
  have hc2 : Scenario.c.2
      = Scenario.pk2 * Scenario.sk + generate_message_space.getD 0 0 := rfl
  have hmpp : Scenario.mpp H = generate_message_space.getD 0 0 * Scenario.ch H := by
    unfold Scenario.mpp Scenario.u1 Scenario.d1 Scenario.tag Scenario.ch
      Sender.authenticate pairing Scenario.s
    dsimp only
    rw [hc2]
    ring
  constructor
  · intro heq
    rw [hmpp] at heq
    unfold Scenario.pmi pairing at heq
    have hcansub : Scenario.ch H * generate_message_space.getD 0 0
        = Scenario.ch H * generate_message_space.getD i 0 := by
      linear_combination heq
    have hex : generate_message_space.getD 0 0 = generate_message_space.getD i 0 :=
      hH.mul_left_cancel hcansub
    interval_cases i
    · rfl
    all_goals exact absurd hex (by decide)
  · rintro rfl
    rw [hmpp]
    unfold Scenario.pmi pairing
    rfl

theorem C5_candidate_matching_witness :
    IsUnit ((fun _ => (1 : G2)) Scenario.c) ∧ (0 : ℕ) < 10 ∧
      Scenario.candidateMatch (fun _ => 1) 0 = true :=
  ⟨isUnit_one, by norm_num,
    (C5_candidate_matching (fun _ => 1) isUnit_one 0 (by norm_num)).mpr rfl⟩

/-- C7 counterexample: the claim quantifies over every `max_bitwidth`, but at
`max_bitwidth = 128` the u64 shift `1u64 << 64` computing `m` overflows under
the checked semantics the binary runs with, aborting with an overflow
diagnostic before any search — not the claimed `NoDiscreteLogFound` signal —
even though `B = e(g1,g2)·2^200` is not `A·x` for any `x < 2^128`. -/
theorem C7_shift_overflow_counterexample :
    (∀ x : ℕ, x < 2 ^ 128 → (1 : GT) * (x : Scalar) ≠ ((2 ^ 200 : ℕ) : Scalar)) ∧
      baby_giant_u64 128 1 ((2 ^ 200 : ℕ) : Scalar) ≠ BGOutcome.noDiscreteLog := by
  constructor
  · intro x hx heq
    rw [one_mul] at heq
    have h128 : (2 : ℕ) ^ 128 < r := by norm_num [r]
    have h200 : (2 : ℕ) ^ 200 < r := by norm_num [r]
    have hx' : ((x : ℕ) : Scalar).val = x := ZMod.val_cast_of_lt (lt_trans hx h128)
    have hb' : (((2 ^ 200 : ℕ)) : Scalar).val = 2 ^ 200 := ZMod.val_cast_of_lt h200
    have hxb : x = 2 ^ 200 := by rw [← hx', ← hb', heq]
    have hcmp : (2 : ℕ) ^ 128 < 2 ^ 200 := by norm_num
    omega
  · decide

/-- C7 (amended): for every `max_bitwidth ≤ 127` (so the u64 shift
`1u64 << (max_bitwidth/2)` is defined; under the claim's no-solution
hypothesis the returned index is never computed, so on this range the model
is exact), if no `x < 2^max_bitwidth` satisfies `A·x = B`, the solver
terminates with the `NoDiscreteLogFound` signal, modelled as `none`, after
at most `2^(max_bitwidth/2)` giant steps, rather than returning a value. -/
theorem C7_exhausted_search_returns_none (bw : ℕ) (a b : GT) (_hbw : bw ≤ 127)
    (h : ∀ x : ℕ, x < 2 ^ bw → a * (x : Scalar) ≠ b) :
    baby_giant bw a b = none := by
  cases hres : baby_giant bw a b with
  | none => rfl
  | some x =>
    exfalso
    obtain ⟨hlt, heq⟩ := baby_giant_sound_aux bw a b x hres
    have hbound : 2 ^ (bw / 2) * 2 ^ (bw / 2) ≤ 2 ^ bw := by
      rw [← pow_add]
      exact Nat.pow_le_pow_right (by norm_num) (by omega)
    exact h x (lt_of_lt_of_le hlt hbound) heq

theorem C7_exhausted_search_returns_none_witness :
    (4 : ℕ) ≤ 127 ∧ (∀ x : ℕ, x < 2 ^ 4 → (1 : GT) * (x : Scalar) ≠ 100) ∧
      baby_giant 4 1 100 = none :=
  ⟨by norm_num, by decide,
    C7_exhausted_search_returns_none 4 1 100 (by norm_num) (by decide)⟩

/-- C8 counterexample: the claim asserts exactly `2^(max_bitwidth/2)` baby
steps for every fixed `max_bitwidth`, but at `max_bitwidth = 128` the u64
shift computing `m` overflows before the table loop is reached, so the
program performs 0 baby-step inserts, not `2^64`. -/
theorem C8_baby_steps_overflow_counterexample :
    baby_steps_u64 128 ≠ 2 ^ (128 / 2) := by decide

/-- C8 (amended): for every `max_bitwidth ≤ 64` (where every u64 operation
of the source stays in range, making the model exact) and all target-group
inputs, the baby-step table is built in exactly `2^(max_bitwidth/2)` steps,
the giant-step loop performs at most `2^(max_bitwidth/2)` iterations, and
the search always terminates — either returning a value or signalling
exhaustion (`none`). -/
theorem C8_baby_giant_total (bw : ℕ) (a b : GT) (_hbw : bw ≤ 64) :
    (babyTable a (2 ^ (bw / 2))).length = 2 ^ (bw / 2) ∧
    baby_giant_steps bw a b ≤ 2 ^ (bw / 2) ∧
    (baby_giant bw a b = none ∨ ∃ x, baby_giant bw a b = some x) := by
  refine ⟨by simp [babyTable], ?_, ?_⟩
  · show giantLoopSteps (babyTable a (2 ^ (bw / 2))) (a * ((2 ^ (bw / 2) : ℕ) : Scalar))
        (2 ^ (bw / 2)) 0 (2 ^ (bw / 2)) b ≤ 2 ^ (bw / 2)
    exact giantLoopSteps_le _ _ _ _ _ _
  · cases hres : baby_giant bw a b with
    | none => exact Or.inl rfl
    | some x => exact Or.inr ⟨x, rfl⟩

theorem C8_baby_giant_total_witness :
    (4 : ℕ) ≤ 64 ∧
      ((babyTable 1 (2 ^ (4 / 2))).length = 2 ^ (4 / 2) ∧
        baby_giant_steps 4 1 100 ≤ 2 ^ (4 / 2) ∧
        (baby_giant 4 1 100 = none ∨ ∃ x, baby_giant 4 1 100 = some x)) :=
  ⟨by norm_num, C8_baby_giant_total 4 1 100 (by norm_num)⟩

/-- C9: the encoding map `n ↦ g1 · n` is injective: the ten candidate
messages are pairwise distinct, and more generally any two distinct
non-negative integers below the group order `r` encode to distinct group
elements. -/
theorem C9_encoding_injective :
    List.Pairwise (· ≠ ·) generate_message_space ∧
    ∀ a b : ℕ, a < r → b < r → g1 * (a : Scalar) = g1 * (b : Scalar) → a = b := by
  refine ⟨by decide, ?_⟩
  intro a b ha hb h
  have h' : ((a : ℕ) : Scalar) = ((b : ℕ) : Scalar) := by simpa [g1] using h
  have hval := congrArg ZMod.val h'
  rwa [ZMod.val_cast_of_lt ha, ZMod.val_cast_of_lt hb] at hval

theorem C9_encoding_injective_witness :
    (1 : ℕ) < r ∧ (1 : ℕ) = 1 :=
  ⟨by decide, C9_encoding_injective.2 1 1 (by decide) (by decide) rfl⟩

/-- C10 (implicit soundness): for every `max_bitwidth ≤ 64` and all target
group elements `A`, `B`, whenever `baby_giant` returns `some x` instead of
panicking, `B = A · x` holds — any returned answer is a true discrete
logarithm, even for a degenerate base. -/
theorem C10_baby_giant_sound (bw : ℕ) (a b : GT) (x : ℕ) (_hbw : bw ≤ 64)
    (h : baby_giant bw a b = some x) : a * (x : Scalar) = b :=
  (baby_giant_sound_aux bw a b x h).2

theorem C10_baby_giant_sound_witness :
    (2 : ℕ) ≤ 64 ∧ baby_giant 2 1 3 = some 3 ∧ (1 : GT) * ((3 : ℕ) : Scalar) = 3 :=
  ⟨by norm_num, by decide, C10_baby_giant_sound 2 1 3 3 (by norm_num) (by decide)⟩
